import Mathlib

/-!
Verification of the BPE tokenizer core of the `gpt` repository.

The embedding below translates the C++ drafts shallowly:

* `Json` models the subset of `nlohmann::json` values the tokenizer uses.
* `Hdr0` embeds the draft header whose `TokenizerModel` stores the raw JSON
  object and builds a reverse-vocabulary vector in its constructor.
* `Hdr1` embeds the older draft header whose `TokenizerModel` carries plain
  members (`vocab` map, `tokens` vector) and whose `Tokenizer` exposes
  `token_to_id` / `id_to_token`.
* `malloc_added_tokens` embeds the added-token construction of
  `tokenizer.cpp`.
* `SpecModel` models the BPE encoder/decoder, which the repository only
  specifies but does not implement.

C++ exceptions are modelled with `Except`; `std::map::operator[]` keeps its
default-inserting semantics via explicit state passing; unchecked
`std::vector` element reads are modelled with `Option` where `none` marks an
out-of-bounds access (undefined behavior in the source).
-/

/-- The subset of `nlohmann::json` values used by the tokenizer sources. -/
inductive Json where
  | null : Json
  | bool : Bool → Json
  | num : Nat → Json
  | str : String → Json
  | arr : List Json → Json
  | obj : List (String × Json) → Json

/-- Errors surfacing from the C++ sources: `nlohmann` type conversion
exceptions (`type_error`) and `std::invalid_argument`. Note there is no
`MissingField` or `NotFound` constructor: no such error exists anywhere in
the sources. -/
inductive CppError where
  | typeError : CppError
  | invalidArgument : CppError
deriving DecidableEq

namespace Json

/-- Key lookup inside a JSON object; `none` on non-objects or absent keys. -/
def lookup : Json → String → Option Json
  | .obj fields, k => fields.lookup k
  | _, _ => none

/-- `json::contains`. -/
def containsKey (j : Json) (k : String) : Bool :=
  (j.lookup k).isSome

/-- Read of `operator[]` on a JSON object: an absent key yields the freshly
inserted `null` value (the source's non-const `operator[]` inserts `null`
and returns a reference to it). -/
def indexD (j : Json) (k : String) : Json :=
  (j.lookup k).getD .null

/-- `json::size`: element count for arrays/objects, `0` for `null`, `1`
for other primitives. -/
def jsize : Json → Nat
  | .null => 0
  | .arr xs => xs.length
  | .obj fs => fs.length
  | _ => 1

/-- `json::items()` as iterated by the sources: key/value pairs of an
object; an array yields index-keyed pairs; `null` iterates nothing. -/
def items : Json → List (String × Json)
  | .obj fs => fs
  | .arr xs => (xs.enum).map (fun p => (toString p.1, p.2))
  | _ => []

/-- Range-`for` over a JSON value (`for (json object : added_tokens)`):
array elements, object values, nothing for `null`, the value itself for
other primitives. -/
def elements : Json → List Json
  | .arr xs => xs
  | .obj fs => fs.map Prod.snd
  | .null => []
  | j => [j]

/-- `get<size_t>()` / implicit conversion to an unsigned integer; throws a
type error on non-numbers (including the `null` produced by indexing an
absent key). -/
def asNat : Json → Except CppError Nat
  | .num n => .ok n
  | _ => .error .typeError

/-- `get<std::string>()` / implicit conversion to `std::string`. -/
def asStr : Json → Except CppError String
  | .str s => .ok s
  | _ => .error .typeError

/-- `get<bool>()`; throws a type error on non-booleans, in particular on
the `null` produced by indexing an absent key. -/
def asBool : Json → Except CppError Bool
  | .bool b => .ok b
  | _ => .error .typeError

/-- Conversion of a JSON array to `std::vector<std::string>`; throws a type
error on non-arrays or non-string elements. -/
def asStrList : Json → Except CppError (List String)
  | .arr xs => go xs
  | _ => .error .typeError
where
  go : List Json → Except CppError (List String)
    | [] => .ok []
    | x :: rest => do
      let s ← asStr x
      let ss ← go rest
      .ok (s :: ss)

end Json

namespace Hdr0

/-- The newer draft header's `TokenizerModel`: it stores the whole model
description (`__model__`) and a reverse-vocabulary vector
(`__reverse_vocab__`), which is default-constructed empty. -/
structure TokenizerModel where
  model : Json
  reverseVocab : List String

/-- The constructor loop body `__reverse_vocab__[id] = token`. The vector
is never resized, so `List.set` — which discards a store at an index at or
beyond the length — models the effect observable through `tokens()`: a
store into the empty vector is out of bounds and the vector stays empty. -/
def buildReverse : List String → List (String × Json) → Except CppError (List String)
  | v, [] => .ok v
  | v, (token, idj) :: rest => do
    let id ← idj.asNat
    buildReverse (v.set id token) rest

/-- `TokenizerModel::TokenizerModel(const json &model)`: stores the JSON and
runs the reverse-vocabulary loop over `__model__["vocab"].items()`. The
only failure is the implicit json→integer conversion of a vocab value. -/
def TokenizerModel.ofJson (j : Json) : Except CppError TokenizerModel := do
  let rv ← buildReverse [] ((j.indexD "vocab").items)
  .ok ⟨j, rv⟩

/-- `TokenizerModel::size()`. -/
def TokenizerModel.size (m : TokenizerModel) : Nat :=
  (m.model.indexD "vocab").jsize

/-- `TokenizerModel::tokens()`: returns `__reverse_vocab__`. -/
def TokenizerModel.tokens (m : TokenizerModel) : List String :=
  m.reverseVocab

/-- `TokenizerModel::merges()`: converts `__model__["merges"]` to a string
vector; with the key absent this converts `null` and throws a type error. -/
def TokenizerModel.merges (m : TokenizerModel) : Except CppError (List String) :=
  (m.model.indexD "merges").asStrList

/-- `TokenizerModel::vocab()`: converts `__model__["vocab"]` to a
`std::map<std::string, size_t>`, returned by value (a copy). -/
def TokenizerModel.vocabMap (m : TokenizerModel) : Except CppError (List (String × Nat)) :=
  go ((m.model.indexD "vocab").items)
where
  go : List (String × Json) → Except CppError (List (String × Nat))
    | [] => .ok []
    | (t, idj) :: rest => do
      let id ← idj.asNat
      let tail ← go rest
      .ok ((t, id) :: tail)

/-- `TokenizerModel::type()`: `contains("type") ? __model__["type"] : "BPE"`. -/
def TokenizerModel.type (m : TokenizerModel) : Except CppError String :=
  if m.model.containsKey "type" then (m.model.indexD "type").asStr else .ok "BPE"

/-- The draft's `Tokenizer` façade; the members not exercised by the
embedded operations (added tokens, special-token pointers, the
normalizer/pre-tokenizer JSON) are omitted. -/
structure Tokenizer where
  model : TokenizerModel

/-- `Tokenizer::token_to_id`: `return model.vocab()[token];` — the map is a
temporary copy, and `operator[]` on it default-inserts `0` for an absent
token, so an absent token yields `0`. -/
def Tokenizer.token_to_id (t : Tokenizer) (token : String) : Except CppError Nat := do
  let v ← t.model.vocabMap
  .ok ((v.lookup token).getD 0)

/-- `Tokenizer::id_to_token`: `return model.tokens()[encoding];` — an
unchecked `std::vector` element access; `none` marks an out-of-bounds read
(undefined behavior in the source), not an error value. -/
def Tokenizer.id_to_token (t : Tokenizer) (encoding : Nat) : Option String :=
  (t.model.tokens)[encoding]?

end Hdr0

namespace Hdr1

/-- The older draft header's `TokenizerModel`: plain members. The `merges`
vector, the boolean flags and `dropout` are carried but not read by the
embedded operations. -/
structure TokenizerModel where
  type : String
  size : Nat
  vocab : List (String × Nat)
  tokens : List String
  merges : List String
  byte_fallback : Bool
  ignore_merges : Bool
deriving DecidableEq

/-- The draft's `Tokenizer` façade over the plain-member model; the members
not exercised by the embedded operations (added tokens, special-token
pointers, the normalizer/pre-tokenizer JSON) are omitted. -/
structure Tokenizer where
  model : TokenizerModel
deriving DecidableEq

/-- `std::map<std::string, size_t>::operator[]`: returns the mapped value
for a present key; for an absent key it default-inserts the key with value
`0` and returns that `0`. The map's sorted storage is abstracted to an
association list with the same lookup semantics; the default-insert is made
explicit by returning the updated map. -/
def mapIndex (m : List (String × Nat)) (k : String) : Nat × List (String × Nat) :=
  match m.lookup k with
  | some v => (v, m)
  | none => (0, m ++ [(k, 0)])

/-- `Tokenizer::token_to_id`: `return model.vocab[token];` — `operator[]`
acts on the member map itself, so an absent token is default-inserted with
id `0`, mutating the model's vocabulary. -/
def Tokenizer.token_to_id (t : Tokenizer) (token : String) : Nat × Tokenizer :=
  let p := mapIndex t.model.vocab token
  (p.1, ⟨{ t.model with vocab := p.2 }⟩)

/-- `Tokenizer::id_to_token`: `return model.tokens[encoding];` — an
unchecked `std::vector` element access; `none` marks an out-of-bounds read
(undefined behavior in the source), not an error value. -/
def Tokenizer.id_to_token (t : Tokenizer) (encoding : Nat) : Option String :=
  (t.model.tokens)[encoding]?

/-- `Tokenizer::size`: reads the model's `size` member, touching nothing. -/
def Tokenizer.size (t : Tokenizer) : Nat :=
  t.model.size

end Hdr1

/-- `struct AddedToken` of `tokenizer.cpp` with its owned `Token` (id and
content) flattened in, as built by `malloc_added_tokens`. -/
structure AddedToken where
  id : Nat
  content : String
  single_word : Bool
  left_strip : Bool
  right_strip : Bool
  normalized : Bool
  special : Bool
deriving DecidableEq

/-- The per-entry body of the `malloc_added_tokens` loop: reads `id`,
`content` and the five boolean flags with `get<T>()`, in the source's
order. Indexing an absent key yields `null`, and `get<bool>()` on `null`
throws a type error — there is no `contains` check and no defaulting. -/
def parseAddedToken (object : Json) : Except CppError AddedToken := do
  let id ← (object.indexD "id").asNat
  let content ← (object.indexD "content").asStr
  let sw ← (object.indexD "single_word").asBool
  let ls ← (object.indexD "lstrip").asBool
  let rs ← (object.indexD "rstrip").asBool
  let nz ← (object.indexD "normalized").asBool
  let sp ← (object.indexD "special").asBool
  .ok ⟨id, content, sw, ls, rs, nz, sp⟩

/-- The entry loop of `malloc_added_tokens`, pushing one parsed token per
iterated element. -/
def parseAddedTokenList : List Json → Except CppError (List AddedToken)
  | [] => .ok []
  | o :: rest => do
    let a ← parseAddedToken o
    let as' ← parseAddedTokenList rest
    .ok (a :: as')

/-- `malloc_added_tokens(nlohmann::json added_tokens)`: throws
`std::invalid_argument` on `null`, otherwise builds one `AddedToken` per
iterated element, in order (allocation itself is a resource detail with no
observable value-level effect and is elided). `set_special_tokens` in the
sibling draft has the same field semantics. -/
def malloc_added_tokens (added_tokens : Json) : Except CppError (List AddedToken) :=
  match added_tokens with
  | .null => .error .invalidArgument
  | j => parseAddedTokenList j.elements


namespace SpecModel

/-- Modelled from the spec: the repository contains no implementation of
the BPE Encoder (§4.4), BPE Decoder (§4.5) or the encode/decode façade
(§4.6/§6) — only the surrounding data structures exist in `src/`. The model
below follows the spec's words at the byte level ("raw bytes" atomic
symbols): strings are byte lists, the vocabulary maps token byte-strings to
ids, merges are ranked by list position. Dropout (a randomized train-time
feature) and UTF-8 validity checking of the decoded bytes are outside this
model; the added-token overlay is empty, matching the claim's scope of
vocabulary/byte-fallback coverage. -/
structure Model where
  vocab : List (List Nat × Nat)
  merges : List (List Nat × List Nat)
  byte_fallback : Bool
  ignore_merges : Bool
  fuse_unk : Bool
  unk_id : Option Nat
  bos_id : Option Nat
  eos_id : Option Nat
  special_ids : List Nat

/-- Modelled from the spec: `tokenToId` — forward vocabulary lookup. -/
def tokenToId (m : Model) (s : List Nat) : Option Nat :=
  (m.vocab.find? (fun e => e.1 == s)).map (·.2)

/-- Modelled from the spec: `idToToken` — reverse vocabulary lookup. -/
def idToToken (m : Model) (i : Nat) : Option (List Nat) :=
  (m.vocab.find? (fun e => e.2 == i)).map (·.1)

/-- Modelled from the spec: `mergeRank` — the rank of an ordered pair is
its position in the merges sequence; an absent pair means "never merge". -/
def mergeRank (m : Model) (a b : List Nat) : Option Nat :=
  m.merges.findIdx? (fun pr => pr.1 == a && pr.2 == b)

/-- The adjacent pairs of a symbol sequence, tagged with their position. -/
def candidates (m : Model) (syms : List (List Nat)) : List (Nat × Nat) :=
  ((syms.zip syms.tail).enum).filterMap
    (fun pc => (mergeRank m pc.2.1 pc.2.2).map (fun r => (pc.1, r)))

/-- Modelled from the spec: choose the adjacent pair with the lowest merge
rank, ties broken by leftmost position (the strict `<` on a left-to-right
scan keeps the earlier position on equal ranks). -/
def pickBest : Option (Nat × Nat) → List (Nat × Nat) → Option (Nat × Nat)
  | best, [] => best
  | none, c :: rest => pickBest (some c) rest
  | some b, c :: rest => pickBest (some (if c.2 < b.2 then c else b)) rest

/-- The best mergeable adjacent pair of the symbol sequence, if any. -/
def bestCand (m : Model) (syms : List (List Nat)) : Option (Nat × Nat) :=
  pickBest none (candidates m syms)

/-- Replace the symbols at positions `i` and `i + 1` by their
concatenation. -/
def mergeAt : List (List Nat) → Nat → List (List Nat)
  | a :: b :: rest, 0 => (a ++ b) :: rest
  | a :: rest, n + 1 => a :: mergeAt rest n
  | l, _ => l

/-- Modelled from the spec: the merge loop — repeatedly merge the
lowest-ranked adjacent pair until no adjacent pair has a defined rank. Each
applied merge shortens the sequence by one, so `fuel` set to the initial
length always suffices and the loop is exactly the spec's. -/
def mergeLoop (m : Model) : Nat → List (List Nat) → List (List Nat)
  | 0, syms => syms
  | fuel + 1, syms =>
    match bestCand m syms with
    | none => syms
    | some c => mergeLoop m fuel (mergeAt syms c.1)

/-- The symbol sequence the merge phase produces from a piece: start from
single-byte atomic symbols and run the merge loop. -/
def finalSyms (m : Model) (p : List Nat) : List (List Nat) :=
  mergeLoop m p.length (p.map (fun b => [b]))

/-- The hexadecimal digit character codes used by byte tokens. -/
def hexDigit (n : Nat) : Nat :=
  if n < 10 then 48 + n else 55 + n

/-- Modelled from the spec: the `<0xXX>`-style byte-token string for byte
`b`, as a byte string of its six ASCII characters. -/
def byteTokenStr (b : Nat) : List Nat :=
  [60, 48, 120, hexDigit (b / 16), hexDigit (b % 16), 62]

/-- Decode one hexadecimal digit character code. -/
def unhexDigit (c : Nat) : Option Nat :=
  if 48 ≤ c ∧ c ≤ 57 then some (c - 48)
  else if 65 ≤ c ∧ c ≤ 70 then some (c - 55)
  else none

/-- Modelled from the spec: recognize a `<0xXX>`-style byte token and
recover its raw byte value, for the decoder's byte-fallback reassembly. -/
def parseByteToken : List Nat → Option Nat
  | [a, z, x, h1, h2, c] =>
    if a = 60 ∧ z = 48 ∧ x = 120 ∧ c = 62 then
      match unhexDigit h1, unhexDigit h2 with
      | some d1, some d2 => some (16 * d1 + d2)
      | _, _ => none
    else none
  | _ => none

/-- Errors of the encode phase (§4.4/§7). `missingByteToken` covers a byte
whose `<0xXX>` token is absent from the vocabulary while byte-fallback is
enabled, a case the spec leaves fatal like the rest. -/
inductive EncodeError where
  | noUnknownTokenConfigured : EncodeError
  | missingByteToken : EncodeError
deriving DecidableEq

/-- Errors of the decode phase (§4.5/§7). -/
inductive DecodeError where
  | invalidTokenId : DecodeError
deriving DecidableEq

/-- Modelled from the spec: byte-fallback — re-emit a symbol as its
constituent byte values, each looked up as a `<0xXX>`-style byte token. -/
def byteFallbackIds (m : Model) : List Nat → Except EncodeError (List Nat)
  | [] => .ok []
  | b :: rest =>
    match tokenToId m (byteTokenStr b) with
    | some i => do
      let t ← byteFallbackIds m rest
      .ok (i :: t)
    | none => .error .missingByteToken

/-- Modelled from the spec: map the merged symbols to ids — vocabulary
lookup first; an absent symbol uses byte-fallback when enabled, else the
unknown token (with consecutive unknowns collapsed when `fuse_unk` is set),
and is a fatal error when neither exists. The boolean argument records
whether the previously emitted id was the unknown token. -/
def encodeSymbols (m : Model) : Bool → List (List Nat) → Except EncodeError (List Nat)
  | _, [] => .ok []
  | prevUnk, s :: rest =>
    match tokenToId m s with
    | some i => do
      let t ← encodeSymbols m false rest
      .ok (i :: t)
    | none =>
      if m.byte_fallback then do
        let bids ← byteFallbackIds m s
        let t ← encodeSymbols m false rest
        .ok (bids ++ t)
      else
        match m.unk_id with
        | some u =>
          if m.fuse_unk && prevUnk then encodeSymbols m true rest
          else do
            let t ← encodeSymbols m true rest
            .ok (u :: t)
        | none => .error .noUnknownTokenConfigured

/-- Modelled from the spec: the BPE Encoder on one piece — the
`ignore_merges` fast path returns the whole piece's id when it exists
verbatim in the vocabulary; otherwise the merge loop runs and the final
symbols are mapped to ids. -/
def encodePiece (m : Model) (p : List Nat) : Except EncodeError (List Nat) :=
  match m.ignore_merges, tokenToId m p with
  | true, some i => .ok [i]
  | _, _ => encodeSymbols m false (finalSyms m p)

/-- Modelled from the spec: the BPE Decoder — map each id to its token
string (failing with `InvalidTokenId` on an id outside the reverse
mapping), reassembling `<0xXX>` byte tokens to their raw byte values. -/
def decodeIds (m : Model) : List Nat → Except DecodeError (List Nat)
  | [] => .ok []
  | i :: rest =>
    match idToToken m i with
    | none => .error .invalidTokenId
    | some t => do
      let restBytes ← decodeIds m rest
      match parseByteToken t with
      | some b => .ok ([b] ++ restBytes)
      | none => .ok (t ++ restBytes)

/-- Modelled from the spec: `encode(text, addSpecialTokens)` on a
normalized piece (identity normalizer/pre-tokenizer boundary, empty
added-token registry); `addSpecialTokens` wraps the ids with the declared
bos/eos ids. -/
def encode (m : Model) (p : List Nat) (addSpecialTokens : Bool) :
    Except EncodeError (List Nat) := do
  let ids ← encodePiece m p
  if addSpecialTokens then
    .ok ((m.bos_id.toList) ++ ids ++ (m.eos_id.toList))
  else
    .ok ids

/-- Modelled from the spec: `decode(ids, skipSpecialTokens)` — with the
skip flag set, ids of declared special tokens are omitted before token
reassembly. -/
def decode (m : Model) (ids : List Nat) (skipSpecialTokens : Bool) :
    Except DecodeError (List Nat) :=
  decodeIds m (if skipSpecialTokens then ids.filter (fun i => !(m.special_ids.contains i)) else ids)

/-- Coverage of one symbol, the claim's "covered by the vocabulary or
byte-fallback" made precise: a symbol in the vocabulary must decode back to
itself, must not look like a byte token, and must not carry a special id; a
symbol outside the vocabulary needs byte-fallback enabled with every one of
its bytes backed by a round-tripping byte token. -/
def symOkB (m : Model) (s : List Nat) : Bool :=
  match tokenToId m s with
  | some i =>
    (idToToken m i == some s) && (parseByteToken s == none) && !(m.special_ids.contains i)
  | none =>
    m.byte_fallback && s.all (fun b =>
      match tokenToId m (byteTokenStr b) with
      | some i => (idToToken m i == some (byteTokenStr b)) && !(m.special_ids.contains i)
      | none => false)

/-- Coverage of the `ignore_merges` fast path: when the whole piece is in
the vocabulary, it must decode back to itself. -/
def fastOkB (m : Model) (p : List Nat) : Bool :=
  match tokenToId m p with
  | some i =>
    (idToToken m i == some p) && (parseByteToken p == none) && !(m.special_ids.contains i)
  | none => true

end SpecModel

/-- A model description with a one-entry vocabulary and an empty merges
list, used to exhibit the broken reverse mapping. -/
def jVocabA : Json :=
  .obj [("vocab", .obj [("a", .num 0)]), ("merges", .arr [])]

/-- A model description with a two-entry vocabulary. -/
def jVocabHW : Json :=
  .obj [("vocab", .obj [("hello", .num 0), ("world", .num 1)])]

/-- A model description whose `merges` key is absent. -/
def jNoMerges : Json :=
  .obj [("vocab", .obj [("a", .num 0)])]

/-- A model description without a `type` field. -/
def jNoType : Json :=
  .obj [("vocab", .obj []), ("merges", .arr [])]

/-- A model description with an explicit `type` field. -/
def jWithType : Json :=
  .obj [("vocab", .obj []), ("merges", .arr []), ("type", .str "WPM")]

/-- A concrete plain-member tokenizer with the single token `"a"` at id 0,
used for the mutation counterexample. -/
def tMut : Hdr1.Tokenizer :=
  ⟨⟨"BPE", 1, [("a", 0)], ["a"], [], false, false⟩⟩

/-- A concrete plain-member tokenizer used for the absent-token lookup
counterexample. -/
def tAbsent : Hdr1.Tokenizer :=
  ⟨⟨"BPE", 1, [("a", 0)], ["a"], [], false, false⟩⟩

/-- A concrete plain-member tokenizer used for the out-of-range id
counterexample. -/
def tOor : Hdr1.Tokenizer :=
  ⟨⟨"BPE", 1, [("a", 0)], ["a"], [], false, false⟩⟩

/-- An added-token entry carrying only `id` and `content`, with every
boolean flag omitted. -/
def entryNoFlags : Json :=
  .obj [("id", .num 0), ("content", .str "a")]

/-- An added-token entry carrying all required fields and all five flags. -/
def entryFull : Json :=
  .obj [("id", .num 3), ("content", .str "t"), ("single_word", .bool false),
        ("lstrip", .bool false), ("rstrip", .bool false),
        ("normalized", .bool false), ("special", .bool true)]

/-- A second complete added-token entry, for the order-preservation
witness. -/
def entryFull2 : Json :=
  .obj [("id", .num 7), ("content", .str "u"), ("single_word", .bool true),
        ("lstrip", .bool false), ("rstrip", .bool true),
        ("normalized", .bool false), ("special", .bool false)]

/-- A concrete spec-modelled BPE model: tokens `a`, `b`, `ab`, one merge
rule `(a, b)`, byte-fallback enabled with the byte token for `0xFF`
present. -/
def mRT : SpecModel.Model :=
  { vocab := [([97], 0), ([98], 1), ([97, 98], 2), (SpecModel.byteTokenStr 255, 3)]
    merges := [([97], [98])]
    byte_fallback := true
    ignore_merges := false
    fuse_unk := false
    unk_id := none
    bos_id := none
    eos_id := none
    special_ids := [] }

/-- A concrete normalized input for the round-trip witness: the bytes of
`"ab"` followed by the out-of-vocabulary byte `0xFF`. -/
def pRT : List Nat := [97, 98, 255]

theorem ebind_ok {ε α β : Type} (a : α) (f : α → Except ε β) :
    (Except.ok a >>= f) = f a := rfl

theorem ebind_err {ε α β : Type} (e : ε) (f : α → Except ε β) :
    ((Except.error e : Except ε α) >>= f) = Except.error e := rfl

theorem buildReverse_nil_stays_nil (l : List (String × Json)) :
    Hdr0.buildReverse [] l = .ok [] ∨ ∃ e, Hdr0.buildReverse [] l = .error e := by
  induction l with
  | nil => exact Or.inl rfl
  | cons p rest ih =>
    obtain ⟨token, idj⟩ := p
    cases h : idj.asNat with
    | error e =>
      refine Or.inr ⟨e, ?_⟩
      simp [Hdr0.buildReverse, h, ebind_err]
    | ok id =>
      have hset : (([] : List String).set id token) = [] := rfl
      simpa [Hdr0.buildReverse, h, ebind_ok, hset] using ih

/-- C9: constructing the draft `TokenizerModel` writes each reverse-mapping
entry into the never-resized, initially empty vector, so every write is out
of bounds (its index is at or beyond the vector's length, which stays `0`)
and the reverse mapping observed through `tokens()` is empty. -/
theorem C9_reverse_vocab_stays_empty (j : Json) (m : Hdr0.TokenizerModel)
    (h : Hdr0.TokenizerModel.ofJson j = .ok m) :
    m.tokens = [] ∧
      ∀ p ∈ (j.indexD "vocab").items, ∀ id, p.2.asNat = .ok id → m.tokens.length ≤ id := by
  have hrv : m.reverseVocab = [] := by
    rcases buildReverse_nil_stays_nil ((j.indexD "vocab").items) with hb | ⟨e, hb⟩
    · rw [Hdr0.TokenizerModel.ofJson, hb, ebind_ok] at h
      cases h
      rfl
    · rw [Hdr0.TokenizerModel.ofJson, hb, ebind_err] at h
      cases h
  refine ⟨hrv, ?_⟩
  intro p _ id _
  simp [Hdr0.TokenizerModel.tokens, hrv]

/-- Witness for C9 at a concrete two-token model description. -/
theorem C9_reverse_vocab_stays_empty_witness :
    Hdr0.TokenizerModel.ofJson jVocabHW = .ok ⟨jVocabHW, []⟩ ∧
      (Hdr0.TokenizerModel.mk jVocabHW []).tokens = [] :=
  ⟨rfl, (C9_reverse_vocab_stays_empty jVocabHW ⟨jVocabHW, []⟩ rfl).1⟩

/-- C1: evaluating the code at a concrete model description with the single
token `"a"` at id 0: construction succeeds with an empty reverse vocabulary,
`token_to_id` maps `"a"` to `0`, but `id_to_token 0` is an out-of-bounds
read of the empty reverse vector (no token is returned), so
`idToToken(tokenToId("a"))` does not reconstruct `"a"` and
`tokenToId(idToToken(0))` cannot be formed — the documented forward/reverse
inverse law fails on the code. -/
theorem C1_inverse_law_fails_on_code :
    Hdr0.TokenizerModel.ofJson jVocabA = .ok ⟨jVocabA, []⟩ ∧
      Hdr0.Tokenizer.token_to_id ⟨⟨jVocabA, []⟩⟩ "a" = .ok 0 ∧
      Hdr0.Tokenizer.id_to_token ⟨⟨jVocabA, []⟩⟩ 0 = none :=
  ⟨rfl, rfl, rfl⟩

/-- C3 counterexample: a model description missing the `merges` key loads
successfully — the constructor performs no presence validation and no
`MissingField` error exists; only the later `merges()` accessor fails, and
with a type-conversion error. -/
theorem C3_counterexample_no_load_failure :
    Hdr0.TokenizerModel.ofJson jNoMerges = .ok ⟨jNoMerges, []⟩ ∧
      (Hdr0.TokenizerModel.mk jNoMerges []).merges = .error .typeError :=
  ⟨rfl, rfl⟩

/-- C3 amended: loading never checks that `merges` (or `vocab`) is present;
a description without a `merges` key still constructs a model carrying that
description, and the absence surfaces only when `merges()` is invoked, as a
type error from converting the inserted `null`. -/
theorem C3_missing_merges_defers_failure (j : Json) (m : Hdr0.TokenizerModel)
    (h : Hdr0.TokenizerModel.ofJson j = .ok m)
    (hm : j.containsKey "merges" = false) :
    m.model = j ∧ m.merges = .error .typeError := by
  have hmodel : m.model = j := by
    rcases buildReverse_nil_stays_nil ((j.indexD "vocab").items) with hb | ⟨e, hb⟩
    · rw [Hdr0.TokenizerModel.ofJson, hb, ebind_ok] at h
      cases h
      rfl
    · rw [Hdr0.TokenizerModel.ofJson, hb, ebind_err] at h
      cases h
  have hlk : j.lookup "merges" = none := by
    rw [Json.containsKey] at hm
    exact Option.not_isSome_iff_eq_none.mp (by simp [hm])
  refine ⟨hmodel, ?_⟩
  rw [Hdr0.TokenizerModel.merges, hmodel, Json.indexD, hlk]
  rfl

/-- Witness for C3 amended at the concrete `merges`-less description. -/
theorem C3_missing_merges_defers_failure_witness :
    Hdr0.TokenizerModel.ofJson jNoMerges = .ok ⟨jNoMerges, []⟩ ∧
      jNoMerges.containsKey "merges" = false ∧
      (Hdr0.TokenizerModel.mk jNoMerges []).model = jNoMerges ∧
      (Hdr0.TokenizerModel.mk jNoMerges []).merges = .error .typeError :=
  ⟨rfl, rfl,
    (C3_missing_merges_defers_failure jNoMerges ⟨jNoMerges, []⟩ rfl rfl).1,
    (C3_missing_merges_defers_failure jNoMerges ⟨jNoMerges, []⟩ rfl rfl).2⟩

/-- C8: a loaded model's `type()` is the default `"BPE"` when the `type`
field is absent, and the field's string value when present. -/
theorem C8_type_defaults_to_bpe (j : Json) (m : Hdr0.TokenizerModel)
    (h : Hdr0.TokenizerModel.ofJson j = .ok m) :
    (j.containsKey "type" = false → m.type = .ok "BPE") ∧
      ∀ s, j.lookup "type" = some (.str s) → m.type = .ok s := by
  have hmodel : m.model = j := by
    rcases buildReverse_nil_stays_nil ((j.indexD "vocab").items) with hb | ⟨e, hb⟩
    · rw [Hdr0.TokenizerModel.ofJson, hb, ebind_ok] at h
      cases h
      rfl
    · rw [Hdr0.TokenizerModel.ofJson, hb, ebind_err] at h
      cases h
  constructor
  · intro habs
    rw [Hdr0.TokenizerModel.type, hmodel, habs]
    rfl
  · intro s hs
    have hc : j.containsKey "type" = true := by
      rw [Json.containsKey, hs]
      rfl
    rw [Hdr0.TokenizerModel.type, hmodel, hc, if_pos rfl, Json.indexD, hs]
    rfl

/-- Witness for C8: at a description without `type` the loaded type is
`"BPE"`; at one with `type = "WPM"` it is `"WPM"`. -/
theorem C8_type_defaults_to_bpe_witness :
    (Hdr0.TokenizerModel.mk jNoType []).type = .ok "BPE" ∧
      (Hdr0.TokenizerModel.mk jWithType []).type = .ok "WPM" :=
  ⟨(C8_type_defaults_to_bpe jNoType ⟨jNoType, []⟩ rfl).1 rfl,
    (C8_type_defaults_to_bpe jWithType ⟨jWithType, []⟩ rfl).2 "WPM" rfl⟩

/-- C4 counterexample: calling `token_to_id` with the absent token `"x"` on
a tokenizer whose vocabulary is `{"a" ↦ 0}` default-inserts `("x", 0)` into
the model's vocabulary map — the operation mutates the shared Vocabulary
Model, so the tokenizer is observably different afterwards. -/
theorem C4_counterexample_token_to_id_mutates :
    (tMut.token_to_id "x").2.model.vocab = [("a", 0), ("x", 0)] ∧
      (tMut.token_to_id "x").2 ≠ tMut := by
  refine ⟨rfl, ?_⟩
  decide

/-- C4 amended: `token_to_id` on a token present in the vocabulary leaves
the tokenizer unchanged, but on an absent token it default-inserts the
token with id `0`, mutating the model's vocabulary map. -/
theorem C4_token_to_id_mutation_characterized (t : Hdr1.Tokenizer) (token : String) :
    (t.model.vocab.lookup token = none →
        (t.token_to_id token).2.model.vocab = t.model.vocab ++ [(token, 0)] ∧
          (t.token_to_id token).2 ≠ t) ∧
      ((t.model.vocab.lookup token).isSome = true → (t.token_to_id token).2 = t) := by
  constructor
  · intro habs
    constructor
    · simp [Hdr1.Tokenizer.token_to_id, Hdr1.mapIndex, habs]
    · intro h
      have hlen := congrArg (fun tk => tk.model.vocab.length) h
      simp [Hdr1.Tokenizer.token_to_id, Hdr1.mapIndex, habs] at hlen
  · intro hsome
    cases hlk : t.model.vocab.lookup token with
    | none => rw [hlk] at hsome; cases hsome
    | some v => simp [Hdr1.Tokenizer.token_to_id, Hdr1.mapIndex, hlk]

/-- Witness for C4 amended: both branches at a concrete tokenizer. -/
theorem C4_token_to_id_mutation_characterized_witness :
    (tMut.model.vocab.lookup "y" = none ∧
        (tMut.token_to_id "y").2.model.vocab = tMut.model.vocab ++ [("y", 0)]) ∧
      ((tMut.model.vocab.lookup "a").isSome = true ∧ (tMut.token_to_id "a").2 = tMut) :=
  ⟨⟨rfl, ((C4_token_to_id_mutation_characterized tMut "y").1 rfl).1⟩,
    ⟨rfl, (C4_token_to_id_mutation_characterized tMut "a").2 rfl⟩⟩

/-- C5 counterexample: on a tokenizer whose vocabulary is `{"a" ↦ 0}`, the
absent token `"x"` does not produce a `NotFound` error — `token_to_id`
returns the integer id `0`, indistinguishable from the id of `"a"`. -/
theorem C5_counterexample_absent_token_returns_zero :
    tAbsent.model.vocab.lookup "x" = none ∧ (tAbsent.token_to_id "x").1 = 0 :=
  ⟨rfl, rfl⟩

/-- C5 amended: for every token absent from the vocabulary, `token_to_id`
returns the default-inserted id `0` (never a `NotFound` error — no such
error value exists in the code). -/
theorem C5_absent_token_yields_default_zero (t : Hdr1.Tokenizer) (token : String)
    (h : t.model.vocab.lookup token = none) :
    (t.token_to_id token).1 = 0 := by
  simp [Hdr1.Tokenizer.token_to_id, Hdr1.mapIndex, h]

/-- Witness for C5 amended at a concrete tokenizer and absent token. -/
theorem C5_absent_token_yields_default_zero_witness :
    tAbsent.model.vocab.lookup "zz" = none ∧ (tAbsent.token_to_id "zz").1 = 0 :=
  ⟨rfl, C5_absent_token_yields_default_zero tAbsent "zz" rfl⟩

/-- C6 counterexample: on a tokenizer whose reverse vector holds one token,
the out-of-range id `5` does not produce an `OutOfRange` or
`InvalidTokenId` error — `id_to_token` performs an unchecked vector access,
which at index 5 is out of bounds (undefined behavior, modelled `none`); no
error value exists in the code. -/
theorem C6_counterexample_oob_id_unchecked :
    tOor.model.tokens.length = 1 ∧ tOor.id_to_token 5 = none :=
  ⟨rfl, rfl⟩

/-- C6 amended: for every id at or beyond the reverse vector's length,
`id_to_token` is an unchecked out-of-bounds vector access (undefined
behavior) that yields no token string and no error value. -/
theorem C6_oob_id_reads_out_of_bounds (t : Hdr1.Tokenizer) (i : Nat)
    (h : t.model.tokens.length ≤ i) :
    t.id_to_token i = none := by
  rw [Hdr1.Tokenizer.id_to_token]
  exact List.getElem?_eq_none h

/-- Witness for C6 amended at a concrete tokenizer and id. -/
theorem C6_oob_id_reads_out_of_bounds_witness :
    tOor.model.tokens.length ≤ 7 ∧ tOor.id_to_token 7 = none :=
  ⟨by decide, C6_oob_id_reads_out_of_bounds tOor 7 (by decide)⟩

theorem exceptBind_ok {ε α β : Type} {x : Except ε α} {f : α → Except ε β} {b : β}
    (h : (x >>= f) = .ok b) : ∃ a, x = .ok a ∧ f a = .ok b := by
  cases x with
  | error e => rw [ebind_err] at h; cases h
  | ok a => rw [ebind_ok] at h; exact ⟨a, rfl, h⟩

theorem asBool_ok {j : Json} {b : Bool} (h : Json.asBool j = .ok b) : j = .bool b := by
  cases j <;> simp [Json.asBool] at h
  rw [h]

theorem containsKey_of_asBool_ok {o : Json} {k : String} {b : Bool}
    (h : (o.indexD k).asBool = .ok b) : o.containsKey k = true := by
  cases hlk : o.lookup k with
  | none => rw [Json.indexD, hlk] at h; cases h
  | some v => rw [Json.containsKey, hlk]; rfl

theorem parseAddedToken_ok_flags {o : Json} {a : AddedToken}
    (h : parseAddedToken o = .ok a) :
    o.containsKey "single_word" = true ∧ o.containsKey "lstrip" = true ∧
      o.containsKey "rstrip" = true ∧ o.containsKey "normalized" = true ∧
      o.containsKey "special" = true := by
  rw [parseAddedToken] at h
  obtain ⟨id, h1, h⟩ := exceptBind_ok h
  obtain ⟨content, h2, h⟩ := exceptBind_ok h
  obtain ⟨sw, h3, h⟩ := exceptBind_ok h
  obtain ⟨ls, h4, h⟩ := exceptBind_ok h
  obtain ⟨rs, h5, h⟩ := exceptBind_ok h
  obtain ⟨nz, h6, h⟩ := exceptBind_ok h
  obtain ⟨sp, h7, h⟩ := exceptBind_ok h
  exact ⟨containsKey_of_asBool_ok h3, containsKey_of_asBool_ok h4,
    containsKey_of_asBool_ok h5, containsKey_of_asBool_ok h6,
    containsKey_of_asBool_ok h7⟩

theorem parseAddedTokenList_ok_mem {objs : List Json} {ats : List AddedToken}
    (h : parseAddedTokenList objs = .ok ats) :
    ∀ o ∈ objs, ∃ a, parseAddedToken o = .ok a := by
  induction objs generalizing ats with
  | nil => intro o ho; cases ho
  | cons x rest ih =>
    rw [parseAddedTokenList] at h
    obtain ⟨a, h1, h⟩ := exceptBind_ok h
    obtain ⟨as', h2, h⟩ := exceptBind_ok h
    intro o ho
    rcases List.mem_cons.mp ho with rfl | hmem
    · exact ⟨a, h1⟩
    · exact ih h2 o hmem

theorem parseAddedTokenList_all_ok {objs : List Json}
    (h : ∀ o ∈ objs, ∃ a, parseAddedToken o = .ok a) :
    ∃ ats, parseAddedTokenList objs = .ok ats ∧ ats.length = objs.length ∧
      ∀ i, ∀ (h1 : i < objs.length) (h2 : i < ats.length),
        parseAddedToken (objs.get ⟨i, h1⟩) = .ok (ats.get ⟨i, h2⟩) := by
  induction objs with
  | nil => exact ⟨[], rfl, rfl, fun i h1 _ => absurd h1 (Nat.not_lt_zero i)⟩
  | cons x rest ih =>
    obtain ⟨a, ha⟩ := h x (List.mem_cons_self x rest)
    obtain ⟨ats, hl, hlen, hpt⟩ := ih (fun o ho => h o (List.mem_cons_of_mem x ho))
    refine ⟨a :: ats, ?_, by simp [hlen], ?_⟩
    · rw [parseAddedTokenList, ha, ebind_ok, hl, ebind_ok]
    · intro i h1 h2
      cases i with
      | zero => exact ha
      | succ n => exact hpt n (Nat.lt_of_succ_lt_succ h1) (Nat.lt_of_succ_lt_succ h2)

/-- C7 counterexample: an added-token entry that carries `id` and `content`
but omits every boolean flag makes the build fail with a type error
(`get<bool>` on the `null` produced by the absent key) — the flags are not
defaulted to `false` and the build does not succeed. -/
theorem C7_counterexample_missing_flags_fail :
    malloc_added_tokens (.arr [entryNoFlags]) = .error .typeError :=
  rfl

/-- C7 amended: the added-token build succeeds only when every entry
carries all five boolean flags explicitly; an entry with any flag omitted
makes the build fail with a type error, and a flag value is never invented
(neither `true` nor a silent `false` default). -/
theorem C7_flags_must_be_present {objs : List Json} {ats : List AddedToken}
    (h : malloc_added_tokens (.arr objs) = .ok ats) :
    ∀ o ∈ objs, o.containsKey "single_word" = true ∧ o.containsKey "lstrip" = true ∧
      o.containsKey "rstrip" = true ∧ o.containsKey "normalized" = true ∧
      o.containsKey "special" = true := by
  intro o ho
  have hl : parseAddedTokenList objs = .ok ats := h
  obtain ⟨a, ha⟩ := parseAddedTokenList_ok_mem hl o ho
  exact parseAddedToken_ok_flags ha

/-- Witness for C7 amended: a successful build from one fully-flagged
entry, whose flags are therefore all present. -/
theorem C7_flags_must_be_present_witness :
    malloc_added_tokens (.arr [entryFull]) = .ok [⟨3, "t", false, false, false, false, true⟩] ∧
      entryFull.containsKey "single_word" = true := by
  have hb : malloc_added_tokens (.arr [entryFull]) =
      .ok [⟨3, "t", false, false, false, false, true⟩] := rfl
  exact ⟨hb, (C7_flags_must_be_present hb entryFull (List.mem_cons_self entryFull [])).1⟩

/-- C10: building the added-token collection from a `null` serialized list
raises `std::invalid_argument` and produces no tokens; from a non-`null`
list whose entries all parse, it builds exactly one `AddedToken` per entry,
in the list's order. -/
theorem C10_added_token_build (objs : List Json)
    (h : ∀ o ∈ objs, ∃ a, parseAddedToken o = .ok a) :
    malloc_added_tokens .null = .error .invalidArgument ∧
      ∃ ats, malloc_added_tokens (.arr objs) = .ok ats ∧ ats.length = objs.length ∧
        ∀ i, ∀ (h1 : i < objs.length) (h2 : i < ats.length),
          parseAddedToken (objs.get ⟨i, h1⟩) = .ok (ats.get ⟨i, h2⟩) := by
  refine ⟨rfl, ?_⟩
  obtain ⟨ats, hl, hlen, hpt⟩ := parseAddedTokenList_all_ok h
  exact ⟨ats, hl, hlen, hpt⟩

/-- Witness for C10 at a concrete two-entry list: one token per entry, in
order. -/
theorem C10_added_token_build_witness :
    malloc_added_tokens .null = .error .invalidArgument ∧
      malloc_added_tokens (.arr [entryFull, entryFull2]) =
        .ok [⟨3, "t", false, false, false, false, true⟩,
             ⟨7, "u", true, false, true, false, false⟩] := by
  have h : ∀ o ∈ [entryFull, entryFull2], ∃ a, parseAddedToken o = .ok a := by
    intro o ho
    rcases List.mem_cons.mp ho with rfl | ho2
    · exact ⟨⟨3, "t", false, false, false, false, true⟩, rfl⟩
    · rcases List.mem_cons.mp ho2 with rfl | ho3
      · exact ⟨⟨7, "u", true, false, true, false, false⟩, rfl⟩
      · cases ho3
  exact ⟨(C10_added_token_build [entryFull, entryFull2] h).1, rfl⟩

theorem flatten_mergeAt (syms : List (List Nat)) (i : Nat) :
    (SpecModel.mergeAt syms i).flatten = syms.flatten := by
  induction syms generalizing i with
  | nil => cases i <;> rfl
  | cons a rest ih =>
    cases i with
    | zero =>
      cases rest with
      | nil => rfl
      | cons b rest2 => simp [SpecModel.mergeAt]
    | succ n => simp [SpecModel.mergeAt, ih]

theorem flatten_mergeLoop (m : SpecModel.Model) (fuel : Nat) (syms : List (List Nat)) :
    (SpecModel.mergeLoop m fuel syms).flatten = syms.flatten := by
  induction fuel generalizing syms with
  | zero => rfl
  | succ n ih =>
    rw [SpecModel.mergeLoop]
    cases hbc : SpecModel.bestCand m syms with
    | none => rfl
    | some c => rw [ih, flatten_mergeAt]

theorem flatten_singletons (p : List Nat) :
    (p.map (fun b => [b])).flatten = p := by
  induction p with
  | nil => rfl
  | cons b rest ih => simp [ih]

theorem flatten_finalSyms (m : SpecModel.Model) (p : List Nat) :
    (SpecModel.finalSyms m p).flatten = p := by
  rw [SpecModel.finalSyms, flatten_mergeLoop, flatten_singletons]


theorem decodeIds_append (m : SpecModel.Model) (xs ys : List Nat) (a c : List Nat)
    (hx : SpecModel.decodeIds m xs = .ok a) (hy : SpecModel.decodeIds m ys = .ok c) :
    SpecModel.decodeIds m (xs ++ ys) = .ok (a ++ c) := by
  induction xs generalizing a with
  | nil =>
    rw [SpecModel.decodeIds] at hx
    cases hx
    simpa using hy
  | cons i rest ih =>
    rw [SpecModel.decodeIds] at hx
    cases hit : SpecModel.idToToken m i with
    | none => rw [hit] at hx; cases hx
    | some t =>
      rw [hit] at hx
      obtain ⟨restBytes, hr, hx⟩ := exceptBind_ok hx
      have hrec := ih restBytes hr
      cases hpt : SpecModel.parseByteToken t with
      | none =>
        rw [hpt] at hx
        cases hx
        simp [SpecModel.decodeIds, hit, hrec, hpt, ebind_ok]
      | some b =>
        rw [hpt] at hx
        cases hx
        simp [SpecModel.decodeIds, hit, hrec, hpt, ebind_ok]

theorem unhex_hexDigit (d : Nat) (h : d < 16) :
    SpecModel.unhexDigit (SpecModel.hexDigit d) = some d := by
  revert d
  decide

theorem parse_byteTokenStr (b : Nat) (h : b < 256) :
    SpecModel.parseByteToken (SpecModel.byteTokenStr b) = some b := by
  have h1 : b / 16 < 16 := Nat.div_lt_of_lt_mul (by omega)
  have h2 : b % 16 < 16 := Nat.mod_lt b (by omega)
  rw [SpecModel.byteTokenStr, SpecModel.parseByteToken]
  rw [if_pos ⟨rfl, rfl, rfl, rfl⟩, unhex_hexDigit _ h1, unhex_hexDigit _ h2]
  simp [Nat.div_add_mod]

theorem byteFallback_roundtrip (m : SpecModel.Model) (s : List Nat)
    (hs : ∀ b ∈ s,
      (match SpecModel.tokenToId m (SpecModel.byteTokenStr b) with
        | some i => (SpecModel.idToToken m i == some (SpecModel.byteTokenStr b)) &&
            !(m.special_ids.contains i)
        | none => false) = true)
    (hb : ∀ b ∈ s, b < 256) :
    ∃ ids, SpecModel.byteFallbackIds m s = .ok ids ∧
      (∀ i ∈ ids, m.special_ids.contains i = false) ∧
      SpecModel.decodeIds m ids = .ok s := by
  induction s with
  | nil => exact ⟨[], rfl, fun i hi => absurd hi (List.not_mem_nil i), rfl⟩
  | cons b rest ih =>
    have hbmem := hs b (List.mem_cons_self b rest)
    cases hit : SpecModel.tokenToId m (SpecModel.byteTokenStr b) with
    | none => rw [hit] at hbmem; cases hbmem
    | some i =>
      rw [hit] at hbmem
      have hsplit := (Bool.and_eq_true _ _).mp hbmem
      have hinv : SpecModel.idToToken m i = some (SpecModel.byteTokenStr b) :=
        eq_of_beq hsplit.1
      have hns : m.special_ids.contains i = false := by
        simpa using hsplit.2
      obtain ⟨rids, hrl, hrs, hrd⟩ :=
        ih (fun x hx => hs x (List.mem_cons_of_mem b hx))
          (fun x hx => hb x (List.mem_cons_of_mem b hx))
      refine ⟨i :: rids, ?_, ?_, ?_⟩
      · simp [SpecModel.byteFallbackIds, hit, hrl, ebind_ok]
      · intro x hx
        rcases List.mem_cons.mp hx with rfl | hx2
        · exact hns
        · exact hrs x hx2
      · simp [SpecModel.decodeIds, hinv, hrd, ebind_ok,
          parse_byteTokenStr b (hb b (List.mem_cons_self b rest))]

theorem encodeSymbols_roundtrip (m : SpecModel.Model) (syms : List (List Nat)) (prev : Bool)
    (hcov : ∀ s ∈ syms, SpecModel.symOkB m s = true)
    (hb : ∀ s ∈ syms, ∀ b ∈ s, b < 256) :
    ∃ ids, SpecModel.encodeSymbols m prev syms = .ok ids ∧
      (∀ i ∈ ids, m.special_ids.contains i = false) ∧
      SpecModel.decodeIds m ids = .ok syms.flatten := by
  revert hcov hb
  induction syms generalizing prev with
  | nil =>
    intro _ _
    exact ⟨[], rfl, fun i hi => absurd hi (List.not_mem_nil i), rfl⟩
  | cons s rest ih =>
    intro hcov hb
    have hc := hcov s (List.mem_cons_self s rest)
    obtain ⟨rids, hrl, hrs, hrd⟩ :=
      ih false (fun x hx => hcov x (List.mem_cons_of_mem s hx))
        (fun x hx => hb x (List.mem_cons_of_mem s hx))
    cases h1 : SpecModel.tokenToId m s with
    | some i =>
      simp only [SpecModel.symOkB, h1, Bool.and_eq_true, beq_iff_eq] at hc
      obtain ⟨⟨hinv, hparse⟩, hns⟩ := hc
      have hns' : m.special_ids.contains i = false := by
        cases hcon : m.special_ids.contains i with
        | false => rfl
        | true => rw [hcon] at hns; cases hns
      refine ⟨i :: rids, ?_, ?_, ?_⟩
      · simp [SpecModel.encodeSymbols, h1, hrl, ebind_ok]
      · intro x hx
        rcases List.mem_cons.mp hx with rfl | hx2
        · exact hns'
        · exact hrs x hx2
      · simp [SpecModel.decodeIds, hinv, hrd, hparse, ebind_ok]
    | none =>
      simp only [SpecModel.symOkB, h1, Bool.and_eq_true] at hc
      obtain ⟨hbf, hall⟩ := hc
      obtain ⟨bids, hbl, hbs, hbd⟩ :=
        byteFallback_roundtrip m s (List.all_eq_true.mp hall)
          (hb s (List.mem_cons_self s rest))
      refine ⟨bids ++ rids, ?_, ?_, ?_⟩
      · simp [SpecModel.encodeSymbols, h1, hbf, hbl, hrl, ebind_ok]
      · intro x hx
        rcases List.mem_append.mp hx with hx1 | hx2
        · exact hbs x hx1
        · exact hrs x hx2
      · rw [List.flatten_cons]
        exact decodeIds_append m bids rids s rest.flatten hbd hrd

/-- C2: on the spec-modelled tokenizer, decode is the left inverse of
encode up to normalization — for every normalized input whose merged
symbols are covered by the vocabulary or byte-fallback (the precise reading
of the claim's coverage condition, including the `ignore_merges` fast
path), `decode(encode(p, addSpecialTokens := false), skipSpecialTokens :=
true)` reconstructs `p` exactly. -/
theorem C2_decode_left_inverse_of_encode (m : SpecModel.Model) (p : List Nat)
    (hBytes : ∀ b ∈ p, b < 256)
    (hFast : SpecModel.fastOkB m p = true)
    (hcov : ∀ s ∈ SpecModel.finalSyms m p, SpecModel.symOkB m s = true) :
    ∃ ids, SpecModel.encode m p false = .ok ids ∧
      SpecModel.decode m ids true = .ok p := by
  have hbS : ∀ s ∈ SpecModel.finalSyms m p, ∀ b ∈ s, b < 256 := by
    intro s hs b hbs
    apply hBytes
    have hmem : b ∈ (SpecModel.finalSyms m p).flatten :=
      List.mem_flatten.mpr ⟨s, hs, hbs⟩
    rwa [flatten_finalSyms] at hmem
  obtain ⟨ids0, hl0, hs0, hd0⟩ :=
    encodeSymbols_roundtrip m (SpecModel.finalSyms m p) false hcov hbS
  have hd0p : SpecModel.decodeIds m ids0 = .ok p := by
    rwa [flatten_finalSyms] at hd0
  have hfil0 : ids0.filter (fun i => !(m.special_ids.contains i)) = ids0 := by
    apply List.filter_eq_self.mpr
    intro a ha
    rw [hs0 a ha]
    rfl
  cases him : m.ignore_merges with
  | true =>
    cases htok : SpecModel.tokenToId m p with
    | some i =>
      simp only [SpecModel.fastOkB, htok, Bool.and_eq_true, beq_iff_eq] at hFast
      obtain ⟨⟨hinv, hparse⟩, hns⟩ := hFast
      have hns' : m.special_ids.contains i = false := by
        cases hcon : m.special_ids.contains i with
        | false => rfl
        | true => rw [hcon] at hns; cases hns
      refine ⟨[i], ?_, ?_⟩
      · simp [SpecModel.encode, SpecModel.encodePiece, him, htok, ebind_ok]
      · show SpecModel.decodeIds m
            (List.filter (fun x => !(m.special_ids.contains x)) [i]) = .ok p
        have hfil1 : List.filter (fun x => !(m.special_ids.contains x)) [i] = [i] := by
          apply List.filter_eq_self.mpr
          intro a ha
          rcases List.mem_cons.mp ha with rfl | h0
          · rw [hns']
            rfl
          · cases h0
        rw [hfil1]
        simp [SpecModel.decodeIds, hinv, hparse, ebind_ok]
    | none =>
      refine ⟨ids0, ?_, ?_⟩
      · simp [SpecModel.encode, SpecModel.encodePiece, him, htok, hl0, ebind_ok]
      · show SpecModel.decodeIds m
            (List.filter (fun x => !(m.special_ids.contains x)) ids0) = .ok p
        rw [hfil0, hd0p]
  | false =>
    cases htok : SpecModel.tokenToId m p with
    | some i =>
      refine ⟨ids0, ?_, ?_⟩
      · simp [SpecModel.encode, SpecModel.encodePiece, him, htok, hl0, ebind_ok]
      · show SpecModel.decodeIds m
            (List.filter (fun x => !(m.special_ids.contains x)) ids0) = .ok p
        rw [hfil0, hd0p]
    | none =>
      refine ⟨ids0, ?_, ?_⟩
      · simp [SpecModel.encode, SpecModel.encodePiece, him, htok, hl0, ebind_ok]
      · show SpecModel.decodeIds m
            (List.filter (fun x => !(m.special_ids.contains x)) ids0) = .ok p
        rw [hfil0, hd0p]

/-- Witness for C2: a concrete model with one merge rule and byte-fallback,
on the input bytes of `"ab"` followed by `0xFF` — encode yields the merged
token's id and a byte-token id, and decode reconstructs the input. -/
theorem C2_decode_left_inverse_of_encode_witness :
    (∀ b ∈ pRT, b < 256) ∧ SpecModel.fastOkB mRT pRT = true ∧
      (∀ s ∈ SpecModel.finalSyms mRT pRT, SpecModel.symOkB mRT s = true) ∧
      ∃ ids, SpecModel.encode mRT pRT false = .ok ids ∧
        SpecModel.decode mRT ids true = .ok pRT := by
  have h1 : ∀ b ∈ pRT, b < 256 := by decide
  have h2 : SpecModel.fastOkB mRT pRT = true := by decide
  have h3 : ∀ s ∈ SpecModel.finalSyms mRT pRT, SpecModel.symOkB mRT s = true := by decide
  exact ⟨h1, h2, h3, C2_decode_left_inverse_of_encode mRT pRT h1 h2 h3⟩

/-- C10 counterexample: a non-null two-entry list whose second entry omits
its boolean flags makes `malloc_added_tokens` throw a type error and
produce no tokens at all — not one `AddedToken` per entry — so the
unconditional per-entry allocation claim fails on a non-null list. -/
theorem C10_counterexample_unparseable_entry :
    malloc_added_tokens (.arr [entryFull, entryNoFlags]) = .error .typeError :=
  rfl
